import Mathlib

/-!
# Verification of the chain-builder execution engine

This file gives a shallow embedding of the chain-builder repository's core:
the JS value model, `CallContext` (src/lib/contextFactory.js), the argument
validator and the sequential call-queue executor
(`CallQueue.prototype._maybeProcessNext`, `_runCall`, `_callDone`,
`_validateAndPopulateArgs` from src/unnamed/part_008), the build-time
sub-chain block protocol (`CallQueue.prototype.add`, `_maybeOpenSubqueue`,
`_maybeCloseSubqueue`), the clone/run surface (src/lib/chainFactory.js and
src/index.js), and a small-step machine for the asynchronous completion
discipline.  Theorems at the end settle the specification claims.
-/

namespace ChainBuilder

mutual

/-- JS runtime values, as far as the engine observes them: the engine only
branches on truthiness, `typeof`, and string rendering.  Function values are
defunctionalised (`FnCode`) because the validator may invoke a supplied
function argument against the previous result. -/
inductive Value where
  | undefined : Value
  | null : Value
  | bool : Bool → Value
  | num : Int → Value
  | str : String → Value
  | obj : Value
  | func : FnCode → Value

/-- Codes for the function values the validator can be asked to evaluate:
a constant function or the identity on the previous result. -/
inductive FnCode where
  | constFn : Value → FnCode
  | idFn : FnCode

end

deriving instance DecidableEq for Value
deriving instance DecidableEq for FnCode

/-- JS truthiness: `undefined`, `null`, `false`, `0` and the empty string
are falsy; objects and functions are truthy. -/
def Value.truthy : Value → Bool
  | .undefined => false
  | .null => false
  | .bool b => b
  | .num n => n != 0
  | .str s => s ≠ ""
  | .obj => true
  | .func _ => true

/-- The JS `typeof` operator on the modelled values. -/
def Value.typeofStr : Value → String
  | .undefined => "undefined"
  | .null => "object"
  | .bool _ => "boolean"
  | .num _ => "number"
  | .str _ => "string"
  | .obj => "object"
  | .func _ => "function"

/-- JS string coercion (`'' + value`), used in validation error messages. -/
def Value.jsString : Value → String
  | .undefined => "undefined"
  | .null => "null"
  | .bool true => "true"
  | .bool false => "false"
  | .num n => toString n
  | .str s => s
  | .obj => "[object Object]"
  | .func _ => "function"

/-- The modelled value domain contains no class instances, so the JS
`instanceof` test is false on it. -/
def Value.isInstanceOfClass : Value → String → Bool
  | _, _ => false

/-- Evaluate a defunctionalised function value on one argument
(`arg.call(context, previousResult)` in `_validateAndPopulateArgs`). -/
def FnCode.eval : FnCode → Value → Value
  | .constFn v, _ => v
  | .idFn, x => x

/-- CallContext (src/lib/contextFactory.js): the per-execution state visible
to every operation.  `parent` and the method table do not affect the engine's
control flow and are omitted. -/
structure CallContext where
  currentResult : Value := .undefined
  currentError : Value := .undefined

/-- CallContext.prototype.hasError: `!!this._currentError`. -/
def CallContext.hasError (c : CallContext) : Bool := c.currentError.truthy

/-- CallContext.prototype.previousResult. -/
def CallContext.previousResult (c : CallContext) : Value := c.currentResult

/-- CallContext.prototype.previousError. -/
def CallContext.previousError (c : CallContext) : Value := c.currentError

/-- CallQueue.prototype._callDone: record the completion of a call into the
context.  `setError(error)` then `setResult(hasError() ? undefined : result)`. -/
def callDone (c : CallContext) (error result : Value) : CallContext :=
  let c1 : CallContext := { c with currentError := error }
  { c1 with currentResult := if c1.hasError then Value.undefined else result }

/-- One declared parameter specification (`$args` entry). -/
structure ArgSpec where
  required : Bool := false
  default : Value := .undefined
  defaultToPreviousResult : Bool := false
  type : Option String := none
  instanceOf : Option String := none

/-- Previous-result specification (`$previousResult`). -/
structure PrevSpec where
  type : Option String := none
  instanceOf : Option String := none

/-- String of a single apostrophe, used to build error messages without a
literal quote character. -/
def apos : String := Char.toString (Char.ofNat 39)

/-- CallQueue.prototype._validatePreviousResult (src/unnamed/part_008,
lines 257-267). -/
def validatePreviousResult (ctx : CallContext) (spec : PrevSpec) :
    Except String Unit := do
  let previousResult := ctx.previousResult
  match spec.instanceOf with
  | some cls =>
      if ¬ previousResult.isInstanceOfClass cls then
        throw ("Validation Error. Expected previousResult to be an instance of <" ++ cls ++ ">")
  | none => pure ()
  match spec.type with
  | some t =>
      if previousResult.typeofStr ≠ t then
        throw ("Validation Error. Expected previousResult to be \"" ++ t ++
          "\" but was \"" ++ previousResult.typeofStr ++ "\": " ++ previousResult.jsString)
  | none => pure ()

/-- Population step of an argument position (src/unnamed/part_008, lines
282-288): a missing required argument fails; a missing optional one is
replaced by the previous result or the declared default. -/
def populateArg (ctx : CallContext) (args : List Value) (i : Nat)
    (currentArgSpec : ArgSpec) : Except String Value :=
  if args.length ≤ i then
    if currentArgSpec.required then
      throw ("Validation Error. Argument " ++ toString (i + 1) ++
        " is required but was not provided.")
    else
      pure (if currentArgSpec.defaultToPreviousResult then ctx.previousResult
            else currentArgSpec.default)
  else pure (args.getD i .undefined)

/-- Derivation step (src/unnamed/part_008, lines 291-299): a function value
is invoked on the previous result when an instance or a non-function type is
expected. -/
def deriveArg (ctx : CallContext) (currentArgSpec : ArgSpec)
    (arg : Value) : Value :=
  match arg with
  | .func f =>
      if currentArgSpec.instanceOf.isSome ||
         (match currentArgSpec.type with
          | some t => decide (t ≠ "function")
          | none => false) then
        f.eval ctx.previousResult
      else arg
  | _ => arg

/-- Declared-type check (src/unnamed/part_008, lines 301-303). -/
def checkArgType (currentArgSpec : ArgSpec) (arg : Value) :
    Except String Unit :=
  match currentArgSpec.type with
  | some t =>
      if arg.typeofStr ≠ t then
        throw ("Validation Error. Expected \"" ++ arg.typeofStr ++
          "\" to be \"" ++ t ++ "\" for: " ++ arg.jsString)
      else pure ()
  | none => pure ()

/-- Instance check (src/unnamed/part_008, lines 305-307). -/
def checkArgInstance (i : Nat) (currentArgSpec : ArgSpec) (arg : Value) :
    Except String Unit :=
  match currentArgSpec.instanceOf with
  | some cls =>
      if ¬ arg.isInstanceOfClass cls then
        throw ("Validation Error. Expected argument " ++ toString (i + 1) ++
          " to be an instance of <" ++ cls ++ ">")
      else pure ()
  | none => pure ()

/-- One iteration of the `for` loop of `_validateAndPopulateArgs`
(src/unnamed/part_008, lines 277-310) at parameter position `i`: populate,
derive, then check type and instance. -/
def validateOne (ctx : CallContext) (args : List Value) (i : Nat)
    (currentArgSpec : ArgSpec) : Except String Value := do
  let arg0 ← populateArg ctx args i currentArgSpec
  let arg := deriveArg ctx currentArgSpec arg0
  checkArgType currentArgSpec arg
  checkArgInstance i currentArgSpec arg
  pure arg

/-- The `for` loop of `_validateAndPopulateArgs`, accumulating
`argsWithDefaults` from position `i` on. -/
def validateLoop (ctx : CallContext) (args : List Value) :
    Nat → List ArgSpec → Except String (List Value)
  | _, [] => pure []
  | i, currentArgSpec :: restSpec => do
      let arg ← validateOne ctx args i currentArgSpec
      let restVals ← validateLoop ctx args (i + 1) restSpec
      pure (arg :: restVals)

/-- CallQueue.prototype._validateAndPopulateArgs (src/unnamed/part_008,
lines 269-313): reject surplus arguments, then populate and check each
declared parameter position. -/
def validateAndPopulateArgs (ctx : CallContext) (args : List Value)
    (argSpec : List ArgSpec) : Except String (List Value) :=
  if args.length > argSpec.length then
    throw ("Validation Error. Expected " ++ toString argSpec.length ++
      " arguments, but got " ++ toString args.length)
  else
    validateLoop ctx args 0 argSpec

/-- CallDescriptor (src/unnamed/part_008): one queued operation instance.
`subqueue` is present only on block-closing calls and owns the nested
block body. -/
inductive QDesc where
  | mk : String → List Value → Bool → Option (List QDesc) → QDesc

/-- Method name of a descriptor. -/
def QDesc.method : QDesc → String
  | .mk m _ _ _ => m

/-- Declared arguments of a descriptor. -/
def QDesc.args : QDesc → List Value
  | .mk _ a _ _ => a

/-- Skip-on-error flag of a descriptor. -/
def QDesc.skipOnError : QDesc → Bool
  | .mk _ _ s _ => s

/-- Attached subqueue of a descriptor. -/
def QDesc.subqueue : QDesc → Option (List QDesc)
  | .mk _ _ _ q => q

/-- How a registered operation behaves when applied.  An operation either
calls its completion callback once with `(error, result)` (possibly after an
asynchronous wait), raises an exception synchronously during the call, raises
an exception asynchronously inside a callback it scheduled (captured by the
queue's domain), or — for a block-closing operation — runs the attached
subchain on an input derived from the context and relays the subchain's
terminal `(error, result)` to its completion callback. -/
inductive MethodBehavior where
  | callsBack : (CallContext → List Value → Value × Value) → MethodBehavior
  | throwsSync : (CallContext → List Value → Value) → MethodBehavior
  | throwsAsync : (CallContext → List Value → Value) → MethodBehavior
  | runsSubchain : (CallContext → Value) → MethodBehavior

/-- A registered operation with its metadata flags. -/
structure MethodDef where
  behavior : MethodBehavior
  interceptErrors : Bool := false
  argSpec : Option (List ArgSpec) := none
  prevSpec : Option PrevSpec := none

/-- The registered operation table. -/
def Methods : Type := String → MethodDef

/-- Trace events emitted through the Logger (src/lib/Logger.js), projected
to the fields the specification talks about: event kind, nesting depth and
method name. -/
inductive TraceEvent where
  | chainStart : Nat → TraceEvent
  | chainEnd : Nat → TraceEvent
  | callStart : Nat → String → TraceEvent
  | callEnd : Nat → String → Value → Value → TraceEvent
  | callSkipped : Nat → String → TraceEvent
deriving DecidableEq

/-- Result of processing one descriptor: the updated context, the trace
events emitted, and the names of the operations actually invoked
(`method.apply` reached). -/
structure StepOut where
  ctx : CallContext
  trace : List TraceEvent
  invoked : List String

/-- Chain `Except` validation errors into the JS error value handed to the
completion callback. -/
def runValidation (m : MethodDef) (ctx : CallContext) (args : List Value) :
    Except Value (List Value) :=
  match (match m.prevSpec with
         | some ps => validatePreviousResult ctx ps
         | none => Except.ok ()) with
  | .error e => .error (Value.str e)
  | .ok () =>
      match m.argSpec with
      | some spec =>
          match validateAndPopulateArgs ctx args spec with
          | .error e => .error (Value.str e)
          | .ok args2 => .ok args2
      | none => .ok args

/-- Events logged when a call begins (src/unnamed/part_008, lines 245-249):
a method named `end` logs a chain-end event in place of call-start. -/
def startEvents (depth : Nat) (name : String) : List TraceEvent :=
  if name = "end" then [.chainEnd depth] else [.callStart depth name]

/-- Events logged at call completion: `done` logs call-end only when a
call-start memo was taken, which the `end` method never gets. -/
def endEvents (depth : Nat) (name : String) (e r : Value) : List TraceEvent :=
  if name = "end" then [] else [.callEnd depth name e r]

/-- One iteration of `CallQueue.prototype._maybeProcessNext` together with
`_runCall` and `_callDone` (src/unnamed/part_008, lines 193-255 and 319-324)
for a descriptor without an attached subqueue, assuming the operation's
completion is delivered.  If the context is erroring and the descriptor's
`skipOnError` is set, the call is bypassed: a call-skipped trace event is
emitted and `context.skip` feeds the current `(error, result)` back into
`_callDone`.  Otherwise the call runs: validation errors are thrown before
the call-start event and routed to `done` (so neither call event appears);
an asynchronous throw reaches `_callDone` through the domain handler, so it
emits no call-end event. -/
def processCall (M : Methods) (depth : Nat) (ctx : CallContext)
    (name : String) (args : List Value) (skipOnError : Bool) : StepOut :=
  if ctx.hasError && skipOnError then
    { ctx := callDone ctx ctx.previousError ctx.previousResult,
      trace := [.callSkipped depth name], invoked := [] }
  else
    match runValidation (M name) ctx args with
    | .error e =>
        { ctx := callDone ctx e .undefined, trace := [], invoked := [] }
    | .ok args2 =>
        match (M name).behavior with
        | .callsBack f =>
            { ctx := callDone ctx (f ctx args2).1 (f ctx args2).2,
              trace := startEvents depth name ++
                endEvents depth name (f ctx args2).1 (f ctx args2).2,
              invoked := [name] }
        | .throwsSync f =>
            { ctx := callDone ctx (f ctx args2) .undefined,
              trace := startEvents depth name ++
                endEvents depth name (f ctx args2) .undefined,
              invoked := [name] }
        | .throwsAsync f =>
            { ctx := callDone ctx (f ctx args2) .undefined,
              trace := startEvents depth name, invoked := [name] }
        | .runsSubchain _ =>
            { ctx := callDone ctx .undefined .undefined,
              trace := startEvents depth name, invoked := [name] }

/-- Accumulated output of draining a queue from the current position:
final context, number of descriptors consumed by the cursor, trace events,
and invoked operation names. -/
structure DrainOut where
  ctx : CallContext
  consumed : Nat
  trace : List TraceEvent
  invoked : List String

mutual

/-- Process one descriptor, subqueue included.  A descriptor with an
attached subqueue goes through `_runCall`: the subqueue is cloned, wrapped
in a child Chain whose queue has this queue's context as parent, and
prepended to the argument list.  A block-closing operation that relays the
subchain runs the child queue to its terminal callback at depth + 1
(`Logger.chainStart` derives the child depth from the parent memo) and
hands the child's final `(error, result)` to its own completion callback;
the subchain object itself is opaque to value-level operations and is
modelled by an object placeholder for the other behaviors. -/
def processCallFull (M : Methods) (depth : Nat) (ctx : CallContext) :
    QDesc → StepOut
  | QDesc.mk name args soe none => processCall M depth ctx name args soe
  | QDesc.mk name args soe (some sq) =>
      if ctx.hasError && soe then
        { ctx := callDone ctx ctx.previousError ctx.previousResult,
          trace := [.callSkipped depth name], invoked := [] }
      else
        match (M name).behavior with
        | .runsSubchain input =>
            { ctx := callDone ctx
                (processCalls M (depth + 1)
                  { currentResult := input ctx, currentError := .undefined } sq).ctx.previousError
                (processCalls M (depth + 1)
                  { currentResult := input ctx, currentError := .undefined } sq).ctx.previousResult,
              trace := startEvents depth name ++
                (TraceEvent.chainStart (depth + 1) ::
                  (processCalls M (depth + 1)
                    { currentResult := input ctx, currentError := .undefined } sq).trace ++
                  [TraceEvent.chainEnd (depth + 1)]) ++
                endEvents depth name
                  (processCalls M (depth + 1)
                    { currentResult := input ctx, currentError := .undefined } sq).ctx.previousError
                  (processCalls M (depth + 1)
                    { currentResult := input ctx, currentError := .undefined } sq).ctx.previousResult,
              invoked := [name] }
        | _ => processCall M depth ctx name (Value.obj :: args) soe
termination_by d => sizeOf d

/-- Drain a queue one descriptor at a time, the recursive re-entry of
`_maybeProcessNext` after each `_callDone`. -/
def processCalls (M : Methods) (depth : Nat) :
    CallContext → List QDesc → DrainOut
  | ctx, [] => { ctx := ctx, consumed := 0, trace := [], invoked := [] }
  | ctx, d :: rest =>
      { ctx := (processCalls M depth (processCallFull M depth ctx d).ctx rest).ctx,
        consumed := 1 +
          (processCalls M depth (processCallFull M depth ctx d).ctx rest).consumed,
        trace := (processCallFull M depth ctx d).trace ++
          (processCalls M depth (processCallFull M depth ctx d).ctx rest).trace,
        invoked := (processCallFull M depth ctx d).invoked ++
          (processCalls M depth (processCallFull M depth ctx d).ctx rest).invoked }
termination_by _ l => sizeOf l

end

/-- CallQueue.prototype.start reached through Chain.prototype.run
(src/lib/chainFactory.js, lines 91-98): seed the fresh clone's context with
the initial result, emit the chain-start event, drain the queue, then emit
the chain-end event and deliver the final `(previousError, previousResult)`
to the terminal callback. -/
structure RunOut where
  error : Value
  result : Value
  consumed : Nat
  trace : List TraceEvent
  invoked : List String

/-- Run a whole queue from a fresh context holding the initial result. -/
def startQueue (M : Methods) (depth : Nat) (initial : Value)
    (q : List QDesc) : RunOut :=
  let d := processCalls M depth { currentResult := initial, currentError := .undefined } q
  { error := d.ctx.previousError, result := d.ctx.previousResult,
    consumed := d.consumed,
    trace := TraceEvent.chainStart depth :: d.trace ++ [TraceEvent.chainEnd depth],
    invoked := d.invoked }

/-- Chain.prototype._addToChain (src/lib/chainFactory.js, lines 63-82):
the descriptor appended for an ordinary named call skips on error unless the
method intercepts errors. -/
def mkDescriptor (M : Methods) (name : String) (args : List Value) : QDesc :=
  QDesc.mk name args (! (M name).interceptErrors) none

/-! ## Built-in error hooks (src/lib/methods/builtInMethods.js) -/

/-- The `recover` hook (src/lib/methods/builtInMethods.js, lines 22-29):
when the chain is erroring it hands the previous error to the user's
recover callback and completes with whatever that callback produces;
otherwise it skips, passing the current `(error, result)` through. -/
def recoverMethod (recoverCallback : Value → Value × Value) : MethodDef :=
  { behavior := .callsBack (fun ctx _args =>
      if ctx.hasError then recoverCallback ctx.previousError
      else (ctx.previousError, ctx.previousResult)),
    interceptErrors := true }

/-! ## Build-time sub-chain block protocol (src/unnamed/part_008) -/

/-- Build-time state of a CallQueue: its descriptor list, the innermost
open subqueue (`_subqueue`), the open block's marker (`_subqueueType`) and
the total count of unclosed opens routed through this queue
(`_subqueueDepth`, a JS number starting from null which `++`/`--` treat
as 0). -/
inductive BuildState where
  | mk : List QDesc → Option BuildState → Option String → Int → BuildState

/-- Descriptor list of a build state. -/
def BuildState.queueOf : BuildState → List QDesc
  | .mk q _ _ _ => q

/-- Block markers of a registered method (`$beginSubchain` /
`$endSubchain`). -/
structure MethodSig where
  beginMarker : Option String := none
  endMarker : Option String := none

/-- CallQueue.prototype.add together with `_maybeOpenSubqueue` and
`_maybeCloseSubqueue` (src/unnamed/part_008, lines 72-84 and 129-171).
A begin-marker call increments the depth and opens a child queue when none
is open; an end-marker call with no open subqueue throws, with nested depth
remaining routes into the child, and at depth zero checks the marker against
the open block's type, throwing on mismatch or detaching the child queue as
the descriptor's subqueue on match.  Calls made while a subqueue is open and
not just created are routed into the innermost child. -/
def addCall : BuildState → String → MethodSig → List Value → Bool →
    Except String BuildState
  | .mk q none st d, name, sig, args, soe =>
      match sig.endMarker with
      | some t =>
          .error ("Closing a \"" ++ t ++ "\" block that wasn" ++ apos ++ "t opened.")
      | none =>
          match sig.beginMarker with
          | some t =>
              .ok (.mk (q ++ [QDesc.mk name args soe none])
                (some (.mk [] none none 0)) (some t) (d + 1))
          | none => .ok (.mk (q ++ [QDesc.mk name args soe none]) none st d)
  | .mk q (some c) st d, name, sig, args, soe =>
      let d1 := if sig.beginMarker.isSome then d + 1 else d
      match sig.endMarker with
      | some t =>
          if d1 - 1 > 0 then
            match addCall c name sig args soe with
            | .error e => .error e
            | .ok c2 => .ok (.mk q (some c2) st (d1 - 1))
          else if some t ≠ st then
            .error ("Closing a \"" ++ t ++ "\" block when there" ++ apos ++
              "s an open \"" ++ st.getD "undefined" ++ "\" block.")
          else
            .ok (.mk (q ++ [QDesc.mk name args soe (some c.queueOf)])
              none none (d1 - 1))
      | none =>
          match addCall c name sig args soe with
          | .error e => .error e
          | .ok c2 => .ok (.mk q (some c2) st d1)

/-- Well-formed build states: the stack of currently open block markers,
outermost first, with the recorded depth equal to the number of unclosed
opens below this queue. -/
inductive WFB : BuildState → List String → Prop
  | closed (q : List QDesc) (st : Option String) : WFB (.mk q none st 0) []
  | openB (q : List QDesc) (c : BuildState) (t : String) (rest : List String) :
      WFB c rest →
      WFB (.mk q (some c) (some t) (Int.ofNat (rest.length + 1))) (t :: rest)

/-! ## Clone and run surface (src/lib/chainFactory.js, src/unnamed/part_008) -/

/-- Runtime identity of a CallQueue: descriptor list, cursor, started flag
and its own context. -/
structure CallQueueState where
  queue : List QDesc
  currentPosition : Nat := 0
  isStarted : Bool := false
  context : CallContext := {}

/-- CallQueue.prototype.clone (src/unnamed/part_008, lines 52-62): a new
CallQueue over the same descriptor list; the constructor zeroes the cursor,
clears the started flag and builds a fresh context. -/
def cloneQueue (q : CallQueueState) : CallQueueState :=
  { queue := q.queue }

/-- CallQueue.prototype.start on a queue state: drains the whole queue,
leaving the cursor past the end and the context holding the final
`(error, result)`. -/
def startOnState (M : Methods) (depth : Nat) (q : CallQueueState)
    (initial : Value) : CallQueueState × RunOut :=
  let out := startQueue M depth initial q.queue
  ({ queue := q.queue, currentPosition := out.consumed, isStarted := true,
     context := { currentResult := out.result, currentError := out.error } },
   out)

/-- Chain.prototype.run (src/lib/chainFactory.js, lines 91-98):
`this._callQueue.clone().start(initialResult, cb)` — each run drains a fresh
clone, leaving the chain's own queue untouched. -/
def chainRun (M : Methods) (depth : Nat) (q : CallQueueState)
    (initial : Value) : RunOut × CallQueueState :=
  ((startOnState M depth (cloneQueue q) initial).2, q)

/-! ## Public constructor (src/index.js, src/lib/chainFactory.js) -/

/-- A freshly built Chain: its (empty) queue, whether the queue was started
immediately, and the queue's context. -/
structure ChainModel where
  queueList : List QDesc := []
  isStarted : Bool := false
  context : CallContext := {}

/-- Chain constructor (src/lib/chainFactory.js, lines 13-26): starts the
queue immediately exactly when `options.initialResult !== undefined`;
starting seeds the context's result.  A missing options object or missing
`initialResult` key both read as `undefined`. -/
def chainFactoryNew (optionsInitialResult : Value) : ChainModel :=
  if optionsInitialResult ≠ Value.undefined then
    { isStarted := true, context := { currentResult := optionsInitialResult } }
  else
    {}

/-- The exported chain constructor (src/index.js, lines 186-192):
`if (initialResult) return new Chain({ initialResult }); else return new
Chain();`. -/
def publicChain (initialResult : Value) : ChainModel :=
  if initialResult.truthy then chainFactoryNew initialResult
  else chainFactoryNew Value.undefined

/-! ## Small-step machine for asynchronous completions

The machine makes the `_isProcessing` / `_maybeProcessNext` discipline of
src/unnamed/part_008 explicit: invoking an operation leaves the queue with a
single in-flight completion which is delivered at an arbitrary later step,
while `add` may append descriptors (and re-enter `_maybeProcessNext`) at any
time.  A step's labels record dispatches, completions and terminal-callback
firings. -/

/-- A queued operation as the machine sees it: its skip flag and the
`(error, result)` its completion callback will eventually deliver. -/
structure MDesc where
  skipOnError : Bool
  outError : Value
  outResult : Value

/-- Machine state: descriptor list, cursor, `_isStarted`, `_isProcessing`,
the context's error/result, and whether a terminal callback is registered. -/
structure MState where
  queue : List MDesc
  pos : Nat
  started : Bool
  processing : Bool
  error : Value
  result : Value
  whenDone : Bool

/-- Observable labels of machine steps. -/
inductive MLab where
  | invoke : Nat → MLab
  | skipped : Nat → MLab
  | complete : Nat → MLab
  | terminal : MLab
deriving DecidableEq

/-- The `_callDone` update on machine state. -/
def mCallDone (s : MState) (e r : Value) : MState :=
  { s with error := e, result := if e.truthy then Value.undefined else r,
           processing := false }

/-- State update of a skipped descriptor: `_maybeProcessNext` advances the
cursor and `context.skip` feeds `(previousError, previousResult)` straight
back through `_callDone`, which re-forces the result to undefined while the
error is truthy. -/
def skipState (s : MState) : MState :=
  { s with
    pos := s.pos + 1
    result := if s.error.truthy then Value.undefined else s.result }

/-- The synchronous `_maybeProcessNext` loop: with a call in flight or an
unstarted queue it is a no-op; otherwise it skips error-bypassed descriptors
(each skip completing inline through `_callDone`), stops after dispatching
one real invocation, or — at the end of the queue with a terminal callback
registered — fires the terminal callback. -/
def cascade (s : MState) : MState × List MLab :=
  if s.processing || !s.started then (s, [])
  else if h : s.pos < s.queue.length then
    if s.error.truthy && (s.queue.get ⟨s.pos, h⟩).skipOnError then
      ((cascade (skipState s)).1,
        MLab.skipped s.pos :: (cascade (skipState s)).2)
    else
      ({ s with pos := s.pos + 1, processing := true }, [MLab.invoke s.pos])
  else if s.whenDone then (s, [MLab.terminal])
  else (s, [])
termination_by s.queue.length - s.pos
decreasing_by all_goals simp_wf; simp [skipState]; omega

/-- One asynchronous turn of the event loop.  `deliver` fires the pending
completion callback of the in-flight call (descriptor `pos - 1`) and runs the
synchronous cascade it triggers; `add` (allowed only when the first index is
true, i.e. the builder still holds the queue) appends a descriptor and
re-enters `_maybeProcessNext`. -/
inductive MStep : Bool → MState → List MLab → MState → Prop
  | deliver (adds : Bool) (s : MState) (i : Nat)
      (h : s.processing = true) (hi : s.pos = i + 1) (hlt : i < s.queue.length) :
      MStep adds s
        (MLab.complete i ::
          (cascade (mCallDone s (s.queue.get ⟨i, hlt⟩).outError
            (s.queue.get ⟨i, hlt⟩).outResult)).2)
        (cascade (mCallDone s (s.queue.get ⟨i, hlt⟩).outError
          (s.queue.get ⟨i, hlt⟩).outResult)).1
  | add (s : MState) (d : MDesc) :
      MStep true s
        (cascade { s with queue := s.queue ++ [d] }).2
        (cascade { s with queue := s.queue ++ [d] }).1

/-- Reachability by machine turns, accumulating the labels. -/
inductive Reaches (adds : Bool) : MState → List MLab → MState → Prop
  | refl (s : MState) : Reaches adds s [] s
  | step {s : MState} {tr : List MLab} {s1 : MState} {labs : List MLab}
      {s2 : MState} :
      Reaches adds s tr s1 → MStep adds s1 labs s2 →
      Reaches adds s (tr ++ labs) s2

/-- The machine state produced by `CallQueue.start(initial, cb)`. -/
def mInit (q : List MDesc) (v : Value) (wd : Bool) : MState :=
  { queue := q, pos := 0, started := true, processing := false,
    error := .undefined, result := v, whenDone := wd }

/-- Starting a queue: mark started, seed the result, run the first cascade. -/
def mStart (q : List MDesc) (v : Value) (wd : Bool) : MState × List MLab :=
  cascade (mInit q v wd)

/-- Non-terminal labels, the ones the sequencing invariant is about. -/
def isCore : MLab → Bool
  | .terminal => false
  | _ => true

/-- Projection of a trace to its dispatch/completion labels. -/
def proj (tr : List MLab) : List MLab := tr.filter isCore

/-- Canonical shapes of projected traces: descriptors are dispatched in
cursor order, each either skipped (which completes inline) or invoked; an
invoked descriptor must complete before the next dispatch.  The Bool records
whether a call is in flight. -/
inductive Shape : Nat → Bool → List MLab → Prop
  | nil : Shape 0 false []
  | skip (n : Nat) (u : List MLab) :
      Shape n false u → Shape (n + 1) false (u ++ [MLab.skipped n])
  | inv (n : Nat) (u : List MLab) :
      Shape n false u → Shape (n + 1) true (u ++ [MLab.invoke n])
  | comp (n : Nat) (u : List MLab) :
      Shape (n + 1) true u → Shape (n + 1) false (u ++ [MLab.complete n])

/-! ## Concrete fixtures for witnesses -/

/-- Operation that calls back successfully with a fixed string. -/
def okOp (r : String) : MethodDef :=
  { behavior := .callsBack (fun _ _ => (Value.null, Value.str r)) }

/-- Operation that calls back with an error value. -/
def errOp (e : String) : MethodDef :=
  { behavior := .callsBack (fun _ _ => (Value.str e, Value.undefined)) }

/-- Operation that throws synchronously. -/
def throwSyncOp (e : String) : MethodDef :=
  { behavior := .throwsSync (fun _ _ => Value.str e) }

/-- Operation that throws asynchronously from a scheduled callback. -/
def throwAsyncOp (e : String) : MethodDef :=
  { behavior := .throwsAsync (fun _ _ => Value.str e) }

/-- Block-closing operation that runs the attached subchain on the previous
result and relays its terminal callback. -/
def subRelayOp : MethodDef :=
  { behavior := .runsSubchain (fun c => c.previousResult) }

/-- A small registered-method table used by the witnesses. -/
def fixM : Methods := fun n =>
  if n = "boom" then errOp "AN ERROR"
  else if n = "boomSync" then throwSyncOp "SYNC ERROR"
  else if n = "boomAsync" then throwAsyncOp "ASYNC ERROR"
  else if n = "recover" then recoverMethod (fun _ => (Value.null, Value.str "FIXED IT"))
  else if n = "endBlock" then subRelayOp
  else okOp "ok"

/-- Concrete machine descriptors for the witnesses: two asynchronous
operations completing successfully. -/
def mfixA : MDesc :=
  { skipOnError := false, outError := Value.null, outResult := Value.num 1 }

/-- Second concrete machine descriptor. -/
def mfixB : MDesc :=
  { skipOnError := false, outError := Value.null, outResult := Value.num 2 }

/-- Concrete machine queue. -/
def mfixQ : List MDesc := [mfixA, mfixB]

/-- The machine state after starting `mfixQ` in immediate mode: the first
descriptor has been dispatched and is in flight. -/
def mfixS1 : MState :=
  { queue := mfixQ, pos := 1, started := true, processing := true,
    error := Value.undefined, result := Value.undefined, whenDone := false }

/-- The machine state after the first completion is delivered and the
second descriptor is dispatched. -/
def mfixS2 : MState :=
  { queue := mfixQ, pos := 2, started := true, processing := true,
    error := Value.null, result := Value.num 1, whenDone := false }

/-! ## Helper lemmas -/

lemma callDone_def (c : CallContext) (e r : Value) :
    callDone c e r =
      { currentError := e,
        currentResult := if e.truthy then Value.undefined else r } := rfl

lemma callDone_hasError (c : CallContext) (e r : Value) :
    (callDone c e r).hasError = e.truthy := rfl

lemma callDone_forces_undef (c : CallContext) (e r : Value)
    (h : (callDone c e r).hasError = true) :
    (callDone c e r).currentResult = Value.undefined := by
  have he : e.truthy = true := h
  simp [callDone_def, he]

lemma callDone_skip_of_noerror (c : CallContext) (h : c.hasError = false) :
    callDone c c.previousError c.previousResult = c := by
  cases c with
  | mk res err =>
      have he : err.truthy = false := h
      simp [callDone_def, CallContext.previousError, CallContext.previousResult, he]

lemma callDone_skip_of_error (c : CallContext) (h : c.hasError = true)
    (hr : c.currentResult = Value.undefined) :
    callDone c c.previousError c.previousResult = c := by
  cases c with
  | mk res err =>
      have he : err.truthy = true := h
      simp only [CallContext.mk.injEq] at hr ⊢
      simp [callDone_def, CallContext.previousError, CallContext.previousResult, he]
      exact hr.symm

lemma processCall_ctx_shape (M : Methods) (depth : Nat) (ctx : CallContext)
    (name : String) (args : List Value) (soe : Bool) :
    ∃ e r, (processCall M depth ctx name args soe).ctx = callDone ctx e r := by
  unfold processCall
  split
  · exact ⟨_, _, rfl⟩
  · split
    · exact ⟨_, _, rfl⟩
    · split <;> exact ⟨_, _, rfl⟩

lemma processCall_error_forces_undef (M : Methods) (depth : Nat)
    (ctx : CallContext) (name : String) (args : List Value) (soe : Bool)
    (h : (processCall M depth ctx name args soe).ctx.hasError = true) :
    (processCall M depth ctx name args soe).ctx.currentResult = Value.undefined := by
  obtain ⟨e, r, hshape⟩ := processCall_ctx_shape M depth ctx name args soe
  rw [hshape] at h ⊢
  exact callDone_forces_undef _ _ _ h

/-! ## Claim theorems -/

/-- C6: after every completed or skipped call, the error-state flag is the
truthiness of the stored error (`hasError()` is `!!currentError`), and in an
error state the stored result has been forced to `undefined`, so at most one
of result/error is active. -/
theorem c6_error_state_invariant (M : Methods) (depth : Nat)
    (ctx : CallContext) (name : String) (args : List Value) (soe : Bool) :
    ((processCall M depth ctx name args soe).ctx.hasError =
      (processCall M depth ctx name args soe).ctx.currentError.truthy)
    ∧ ((processCall M depth ctx name args soe).ctx.hasError = true →
      (processCall M depth ctx name args soe).ctx.currentResult = Value.undefined) :=
  ⟨rfl, processCall_error_forces_undef M depth ctx name args soe⟩

/-- C6 witness: the invariant evaluated on a concrete erroring call. -/
theorem c6_witness :
    (processCall fixM 0 {} "boom" [] true).ctx.currentResult = Value.undefined :=
  (c6_error_state_invariant fixM 0 {} "boom" [] true).2 (by decide)

lemma processCalls_nil (M : Methods) (depth : Nat) (ctx : CallContext) :
    processCalls M depth ctx [] =
      { ctx := ctx, consumed := 0, trace := [], invoked := [] } := by
  rw [processCalls.eq_def]

lemma processCalls_cons (M : Methods) (depth : Nat) (ctx : CallContext)
    (d : QDesc) (rest : List QDesc) :
    processCalls M depth ctx (d :: rest) =
      { ctx := (processCalls M depth (processCallFull M depth ctx d).ctx rest).ctx,
        consumed := 1 +
          (processCalls M depth (processCallFull M depth ctx d).ctx rest).consumed,
        trace := (processCallFull M depth ctx d).trace ++
          (processCalls M depth (processCallFull M depth ctx d).ctx rest).trace,
        invoked := (processCallFull M depth ctx d).invoked ++
          (processCalls M depth (processCallFull M depth ctx d).ctx rest).invoked } := by
  rw [processCalls.eq_def]

lemma processCallFull_none (M : Methods) (depth : Nat) (ctx : CallContext)
    (name : String) (args : List Value) (soe : Bool) :
    processCallFull M depth ctx (QDesc.mk name args soe none) =
      processCall M depth ctx name args soe := by
  rw [processCallFull.eq_def]

lemma processCallFull_skip (M : Methods) (depth : Nat) (ctx : CallContext)
    (d : QDesc) (he : ctx.hasError = true) (hsoe : d.skipOnError = true) :
    processCallFull M depth ctx d =
      { ctx := callDone ctx ctx.previousError ctx.previousResult,
        trace := [.callSkipped depth d.method], invoked := [] } := by
  cases d with
  | mk name args soe subq =>
      have hsoe2 : soe = true := by simpa [QDesc.skipOnError] using hsoe
      rw [processCallFull.eq_def]
      cases subq with
      | none => simp [processCall, he, hsoe2, QDesc.method]
      | some sq => simp [he, hsoe2, QDesc.method]

lemma processCalls_append (M : Methods) (depth : Nat) (a b : List QDesc)
    (ctx : CallContext) :
    processCalls M depth ctx (a ++ b) =
      { ctx := (processCalls M depth (processCalls M depth ctx a).ctx b).ctx,
        consumed := (processCalls M depth ctx a).consumed +
          (processCalls M depth (processCalls M depth ctx a).ctx b).consumed,
        trace := (processCalls M depth ctx a).trace ++
          (processCalls M depth (processCalls M depth ctx a).ctx b).trace,
        invoked := (processCalls M depth ctx a).invoked ++
          (processCalls M depth (processCalls M depth ctx a).ctx b).invoked } := by
  induction a generalizing ctx with
  | nil => simp [processCalls_nil]
  | cons d rest ih =>
      rw [List.cons_append, processCalls_cons M depth ctx d (rest ++ b),
        processCalls_cons M depth ctx d rest]
      rw [ih]
      simp [List.append_assoc, Nat.add_assoc]

lemma processCalls_skipAll (M : Methods) (depth : Nat) (ctx : CallContext)
    (l : List QDesc) (he : ctx.hasError = true)
    (hr : ctx.currentResult = Value.undefined)
    (hs : ∀ d ∈ l, d.skipOnError = true) :
    processCalls M depth ctx l =
      { ctx := ctx, consumed := l.length,
        trace := l.map (fun d => TraceEvent.callSkipped depth d.method),
        invoked := [] } := by
  induction l with
  | nil => simp [processCalls_nil]
  | cons d rest ih =>
      have hsoe : d.skipOnError = true := hs d (by simp)
      have hskip : callDone ctx ctx.previousError ctx.previousResult = ctx :=
        callDone_skip_of_error ctx he hr
      have hrest := ih (fun x hx => hs x (by simp [hx]))
      rw [processCalls_cons, processCallFull_skip M depth ctx d he hsoe]
      simp [hskip, hrest, Nat.add_comm]

lemma processCalls_consumed (M : Methods) (depth : Nat) (ctx : CallContext)
    (l : List QDesc) : (processCalls M depth ctx l).consumed = l.length := by
  induction l generalizing ctx with
  | nil => simp [processCalls_nil]
  | cons d rest ih =>
      rw [processCalls_cons]
      simp [ih, Nat.add_comm]

/-- C1: when operation k of a run completes with a (truthy) error, every
subsequent descriptor with `skipOnError` set is bypassed — no operation of
the suffix is invoked — while a call-skipped trace event is emitted for each
of them in declared order, the cursor still advances past all of them
(`consumed` equals the whole queue length), and the terminal callback
receives operation k's error with an `undefined` result. -/
theorem c1_error_skip_cascade (M : Methods) (depth : Nat) (v : Value)
    (pre : List QDesc) (kname : String) (kargs : List Value) (ksoe : Bool)
    (rest : List QDesc)
    (hrest : ∀ d ∈ rest, d.skipOnError = true)
    (hk : (processCall M depth
        (processCalls M depth ⟨v, Value.undefined⟩ pre).ctx
        kname kargs ksoe).ctx.currentError.truthy = true) :
    (startQueue M depth v (pre ++ QDesc.mk kname kargs ksoe none :: rest)).error =
      (processCall M depth (processCalls M depth ⟨v, Value.undefined⟩ pre).ctx
        kname kargs ksoe).ctx.currentError
    ∧ (startQueue M depth v (pre ++ QDesc.mk kname kargs ksoe none :: rest)).result =
      Value.undefined
    ∧ (startQueue M depth v (pre ++ QDesc.mk kname kargs ksoe none :: rest)).consumed =
      pre.length + 1 + rest.length
    ∧ (startQueue M depth v (pre ++ QDesc.mk kname kargs ksoe none :: rest)).invoked =
      (processCalls M depth ⟨v, Value.undefined⟩ pre).invoked ++
        (processCall M depth (processCalls M depth ⟨v, Value.undefined⟩ pre).ctx
          kname kargs ksoe).invoked
    ∧ (startQueue M depth v (pre ++ QDesc.mk kname kargs ksoe none :: rest)).trace =
      TraceEvent.chainStart depth ::
        ((processCalls M depth ⟨v, Value.undefined⟩ pre).trace ++
          ((processCall M depth (processCalls M depth ⟨v, Value.undefined⟩ pre).ctx
            kname kargs ksoe).trace ++
            rest.map (fun d => TraceEvent.callSkipped depth d.method))) ++
        [TraceEvent.chainEnd depth] := by
  have hkh : (processCall M depth
      (processCalls M depth ⟨v, Value.undefined⟩ pre).ctx
      kname kargs ksoe).ctx.hasError = true := hk
  have hkr := processCall_error_forces_undef M depth
    (processCalls M depth ⟨v, Value.undefined⟩ pre).ctx kname kargs ksoe hkh
  unfold startQueue
  rw [processCalls_append, processCalls_cons, processCallFull_none,
    processCalls_skipAll M depth _ rest hkh hkr hrest]
  refine ⟨rfl, ?_, ?_, ?_, ?_⟩
  · exact hkr
  · simp [processCalls_consumed, Nat.add_assoc]
  · simp
  · simp

/-- C1 witness: a two-descriptor queue where the first operation errors;
the second is skipped with a trace event, the cursor ends past both, and the
terminal pair is the error with `undefined`. -/
theorem c1_witness :
    (startQueue fixM 0 Value.null
        ([] ++ QDesc.mk "boom" [] true none :: [QDesc.mk "t2" [] true none])).error =
      Value.str "AN ERROR"
    ∧ (startQueue fixM 0 Value.null
        ([] ++ QDesc.mk "boom" [] true none :: [QDesc.mk "t2" [] true none])).result =
      Value.undefined
    ∧ (startQueue fixM 0 Value.null
        ([] ++ QDesc.mk "boom" [] true none :: [QDesc.mk "t2" [] true none])).consumed = 2
    ∧ (startQueue fixM 0 Value.null
        ([] ++ QDesc.mk "boom" [] true none :: [QDesc.mk "t2" [] true none])).invoked =
      ["boom"]
    ∧ (startQueue fixM 0 Value.null
        ([] ++ QDesc.mk "boom" [] true none :: [QDesc.mk "t2" [] true none])).trace =
      [TraceEvent.chainStart 0, TraceEvent.callStart 0 "boom",
        TraceEvent.callEnd 0 "boom" (Value.str "AN ERROR") Value.undefined,
        TraceEvent.callSkipped 0 "t2", TraceEvent.chainEnd 0] := by
  have h := c1_error_skip_cascade fixM 0 Value.null [] "boom" [] true
    [QDesc.mk "t2" [] true none] (by decide)
    (by rw [processCalls_nil]; decide)
  obtain ⟨h1, h2, h3, h4, h5⟩ := h
  refine ⟨?_, h2, h3, ?_, ?_⟩
  · rw [h1, processCalls_nil]; decide
  · rw [h4, processCalls_nil]; decide
  · rw [h5, processCalls_nil]; decide

lemma runValidation_none (m : MethodDef) (ctx : CallContext)
    (args : List Value) (hprev : m.prevSpec = none) (hspec : m.argSpec = none) :
    runValidation m ctx args = .ok args := by
  unfold runValidation
  rw [hprev, hspec]

/-- C4: an exception raised synchronously during the call, or asynchronously
inside a callback scheduled by the operation (captured by the queue's
domain), is routed to that call's completion path as the error argument with
an undefined result: the terminal callback receives the thrown error and an
undefined result, and no subsequently chained skip-on-error operation is
invoked. -/
theorem c4_thrown_exceptions_routed (M : Methods) (depth : Nat) (v : Value)
    (pre : List QDesc) (kname : String) (kargs : List Value)
    (rest : List QDesc) (f : CallContext → List Value → Value)
    (hrest : ∀ d ∈ rest, d.skipOnError = true)
    (hb : (M kname).behavior = .throwsSync f ∨ (M kname).behavior = .throwsAsync f)
    (hspec : (M kname).argSpec = none) (hprev : (M kname).prevSpec = none)
    (hctx : (processCalls M depth ⟨v, Value.undefined⟩ pre).ctx.hasError = false)
    (htr : (f (processCalls M depth ⟨v, Value.undefined⟩ pre).ctx kargs).truthy = true) :
    (startQueue M depth v (pre ++ QDesc.mk kname kargs true none :: rest)).error =
      f (processCalls M depth ⟨v, Value.undefined⟩ pre).ctx kargs
    ∧ (startQueue M depth v (pre ++ QDesc.mk kname kargs true none :: rest)).result =
      Value.undefined
    ∧ (startQueue M depth v (pre ++ QDesc.mk kname kargs true none :: rest)).invoked =
      (processCalls M depth ⟨v, Value.undefined⟩ pre).invoked ++ [kname] := by
  have hval := runValidation_none (M kname)
    (processCalls M depth ⟨v, Value.undefined⟩ pre).ctx kargs hprev hspec
  have hctxstep : (processCall M depth
      (processCalls M depth ⟨v, Value.undefined⟩ pre).ctx kname kargs true).ctx =
      callDone (processCalls M depth ⟨v, Value.undefined⟩ pre).ctx
        (f (processCalls M depth ⟨v, Value.undefined⟩ pre).ctx kargs) Value.undefined := by
    rcases hb with hb | hb <;> simp [processCall, hctx, hval, hb]
  have hinv : (processCall M depth
      (processCalls M depth ⟨v, Value.undefined⟩ pre).ctx kname kargs true).invoked =
      [kname] := by
    rcases hb with hb | hb <;> simp [processCall, hctx, hval, hb]
  have hkh : (processCall M depth
      (processCalls M depth ⟨v, Value.undefined⟩ pre).ctx kname kargs true).ctx.hasError =
      true := by
    rw [hctxstep, callDone_hasError]
    exact htr
  have hkr := processCall_error_forces_undef M depth
    (processCalls M depth ⟨v, Value.undefined⟩ pre).ctx kname kargs true hkh
  unfold startQueue
  rw [processCalls_append, processCalls_cons, processCallFull_none,
    processCalls_skipAll M depth _ rest hkh hkr hrest]
  refine ⟨?_, hkr, ?_⟩
  · show (processCall M depth
      (processCalls M depth ⟨v, Value.undefined⟩ pre).ctx kname kargs true).ctx.previousError = _
    rw [hctxstep]
    rfl
  · simp [hinv]

/-- C4 witness: a synchronously-throwing first operation yields the thrown
error with an undefined result and the following skip-on-error operation is
never invoked. -/
theorem c4_witness :
    (startQueue fixM 0 Value.null
        ([] ++ QDesc.mk "boomSync" [] true none :: [QDesc.mk "t2" [] true none])).error =
      Value.str "SYNC ERROR"
    ∧ (startQueue fixM 0 Value.null
        ([] ++ QDesc.mk "boomSync" [] true none :: [QDesc.mk "t2" [] true none])).result =
      Value.undefined
    ∧ (startQueue fixM 0 Value.null
        ([] ++ QDesc.mk "boomSync" [] true none :: [QDesc.mk "t2" [] true none])).invoked =
      ["boomSync"] := by
  have h := c4_thrown_exceptions_routed fixM 0 Value.null [] "boomSync" []
    [QDesc.mk "t2" [] true none] (fun _ _ => Value.str "SYNC ERROR")
    (by decide) (Or.inl rfl) rfl rfl
    (by rw [processCalls_nil]; decide) (by decide)
  obtain ⟨h1, h2, h3⟩ := h
  refine ⟨h1, h2, ?_⟩
  rw [h3, processCalls_nil]
  rfl

/-- C5: when the queue is erroring and a `recover` descriptor is reached,
the error state is cleared exactly when the recover callback calls back with
a falsy error, after which the recovered value is the previous-result for
subsequent operations; when the queue is not erroring, `recover` passes the
current `(error, result)` through unchanged.  The descriptor appended for
`recover` does not skip on error because the hook intercepts errors. -/
theorem c5_recover (M : Methods) (depth : Nat) (ctx : CallContext)
    (f : Value → Value × Value) (args : List Value)
    (hM : M "recover" = recoverMethod f) :
    (mkDescriptor M "recover" args).skipOnError = false
    ∧ (ctx.hasError = true →
        (processCall M depth ctx "recover" args
            (mkDescriptor M "recover" args).skipOnError).ctx =
          callDone ctx (f ctx.previousError).1 (f ctx.previousError).2
        ∧ ((processCall M depth ctx "recover" args
            (mkDescriptor M "recover" args).skipOnError).ctx.hasError = false ↔
          (f ctx.previousError).1.truthy = false)
        ∧ ((f ctx.previousError).1.truthy = false →
          (processCall M depth ctx "recover" args
            (mkDescriptor M "recover" args).skipOnError).ctx.previousResult =
            (f ctx.previousError).2))
    ∧ (ctx.hasError = false →
        (processCall M depth ctx "recover" args
          (mkDescriptor M "recover" args).skipOnError).ctx = ctx) := by
  have hsk : (mkDescriptor M "recover" args).skipOnError = false := by
    simp [mkDescriptor, hM, recoverMethod, QDesc.skipOnError]
  refine ⟨hsk, ?_, ?_⟩
  · intro he
    have hstep : (processCall M depth ctx "recover" args
        (mkDescriptor M "recover" args).skipOnError).ctx =
        callDone ctx (f ctx.previousError).1 (f ctx.previousError).2 := by
      rw [hsk]
      simp only [processCall, hM, recoverMethod, runValidation, Bool.and_false,
        Bool.false_eq_true, if_false]
      simp [he]
    refine ⟨hstep, ?_, ?_⟩
    · rw [hstep, callDone_hasError]
    · intro hf
      rw [hstep]
      simp [callDone_def, CallContext.previousResult, hf]
  · intro he
    rw [hsk]
    simp only [processCall, hM, recoverMethod, runValidation, Bool.and_false,
      Bool.false_eq_true, if_false]
    simp [he]
    exact callDone_skip_of_noerror ctx he

/-- C5 witness: `recover` on a concrete erroring context with a callback
that calls back `(null, "FIXED IT")` clears the error and installs the
substitute result. -/
theorem c5_witness :
    (processCall fixM 0 { currentResult := Value.undefined, currentError := Value.str "E" }
        "recover" []
        (mkDescriptor fixM "recover" []).skipOnError).ctx.previousResult =
      Value.str "FIXED IT" := by
  have h := c5_recover fixM 0
    { currentResult := Value.undefined, currentError := Value.str "E" }
    (fun _ => (Value.null, Value.str "FIXED IT")) [] rfl
  exact (h.2.1 (by decide)).2.2 (by decide)

/-- C9: `clone()` yields a queue over the same descriptor list with a zeroed
cursor, cleared started flag and a fresh context, and two runs of a chain via
independent clones with different initial values each produce exactly the
result of draining the shared descriptor list from that run's own initial
value — the first run leaves no state behind that the second can observe. -/
theorem c9_clone_independent (M : Methods) (depth : Nat)
    (q : CallQueueState) (v1 v2 : Value) :
    (cloneQueue q).currentPosition = 0
    ∧ (cloneQueue q).isStarted = false
    ∧ (cloneQueue q).context = { currentResult := Value.undefined, currentError := Value.undefined }
    ∧ (cloneQueue q).queue = q.queue
    ∧ (chainRun M depth q v1).1 = startQueue M depth v1 q.queue
    ∧ (chainRun M depth (chainRun M depth q v1).2 v2).1 =
        startQueue M depth v2 q.queue :=
  ⟨rfl, rfl, rfl, rfl, rfl, rfl⟩

lemma addClose_trichotomy (S : BuildState) (stack : List String)
    (hwf : WFB S stack) (name t : String) (args : List Value) (soe : Bool) :
    (stack = [] → addCall S name { endMarker := some t } args soe =
      .error ("Closing a \"" ++ t ++ "\" block that wasn" ++ apos ++ "t opened."))
    ∧ (∀ u, stack.getLast? = some u → u ≠ t →
      addCall S name { endMarker := some t } args soe =
        .error ("Closing a \"" ++ t ++ "\" block when there" ++ apos ++
          "s an open \"" ++ u ++ "\" block."))
    ∧ (stack.getLast? = some t →
      ∃ S2, addCall S name { endMarker := some t } args soe = .ok S2
        ∧ WFB S2 stack.dropLast) := by
  induction hwf with
  | closed q st =>
      refine ⟨fun _ => ?_, fun u hu => by simp at hu, fun h => by simp at h⟩
      rw [addCall]
  | openB q c t0 rest hc ih =>
      cases rest with
      | nil =>
          refine ⟨fun h => by simp at h, ?_, ?_⟩
          · intro u hu hne
            have hu0 : t0 = u := by simpa using hu
            subst hu0
            rw [addCall]
            have hne2 : some t ≠ some t0 := by
              simpa using fun h => hne h.symm
            simp [hne2]
          · intro ht
            have ht0 : t0 = t := by simpa using ht
            subst ht0
            rw [addCall]
            refine ⟨BuildState.mk
              (q ++ [QDesc.mk name args soe (some c.queueOf)])
              none none (Int.ofNat ([t0].length) - 1), ?_, ?_⟩
            · simp
            · exact WFB.closed _ _
      | cons r rs =>
          have hpos : (0 : Int) < Int.ofNat ((r :: rs).length + 1) - 1 := by
            simp
          refine ⟨fun h => by simp at h, ?_, ?_⟩
          · intro u hu hne
            have hu2 : (r :: rs).getLast? = some u := by
              rw [← List.getLast?_cons_cons]
              exact hu
            have herr := ih.2.1 u hu2 hne
            rw [addCall]
            simp [hpos, herr]
          · intro ht
            have ht2 : (r :: rs).getLast? = some t := by
              rw [← List.getLast?_cons_cons]
              exact ht
            obtain ⟨c2, hc2, hwf2⟩ := ih.2.2 ht2
            refine ⟨BuildState.mk q (some c2) (some t0)
              (Int.ofNat ((r :: rs).length + 1) - 1), ?_, ?_⟩
            · rw [addCall]
              simp [hpos, hc2]
            · have hlen : Int.ofNat ((r :: rs).length + 1) - 1 =
                  Int.ofNat ((r :: rs).dropLast.length + 1) := by
                simp [List.length_dropLast]
              rw [hlen, List.dropLast_cons₂]
              exact WFB.openB q c2 t0 (r :: rs).dropLast hwf2

lemma addOpen_ok (S : BuildState) (stack : List String) (hwf : WFB S stack)
    (name u : String) (args : List Value) (soe : Bool) :
    ∃ S2, addCall S name { beginMarker := some u } args soe = .ok S2
      ∧ WFB S2 (stack ++ [u]) := by
  induction hwf with
  | closed q st =>
      refine ⟨BuildState.mk (q ++ [QDesc.mk name args soe none])
        (some (BuildState.mk [] none none 0)) (some u) (0 + 1), ?_, ?_⟩
      · rw [addCall]
      · have h01 : (0 : Int) + 1 =
            Int.ofNat (List.length ([] : List String) + 1) := by decide
        rw [h01]
        exact WFB.openB _ _ u [] (WFB.closed [] none)
  | openB q c t0 rest hc ih =>
      obtain ⟨c2, hc2, hwf2⟩ := ih
      refine ⟨BuildState.mk q (some c2) (some t0)
        (Int.ofNat (rest.length + 1) + 1), ?_, ?_⟩
      · rw [addCall]
        simp [hc2]
      · have hlen : Int.ofNat (rest.length + 1) + 1 =
            Int.ofNat ((rest ++ [u]).length + 1) := by
          simp
        rw [hlen]
        exact WFB.openB q c2 t0 (rest ++ [u]) hwf2

/-- C7: while building a chain, a block-closing call throws a descriptive
synchronous error exactly when no block is open or the end marker differs
from the innermost open block's marker; a close matching the innermost open
marker succeeds (popping it), and opening a block always succeeds (pushing
its marker) — so well-matched open/close pairs never throw. -/
theorem c7_block_matching (S : BuildState) (stack : List String)
    (name t : String) (args : List Value) (soe : Bool) (hwf : WFB S stack) :
    (stack = [] → addCall S name { endMarker := some t } args soe =
      .error ("Closing a \"" ++ t ++ "\" block that wasn" ++ apos ++ "t opened."))
    ∧ (∀ u, stack.getLast? = some u → u ≠ t →
      addCall S name { endMarker := some t } args soe =
        .error ("Closing a \"" ++ t ++ "\" block when there" ++ apos ++
          "s an open \"" ++ u ++ "\" block."))
    ∧ (stack.getLast? = some t →
      ∃ S2, addCall S name { endMarker := some t } args soe = .ok S2
        ∧ WFB S2 stack.dropLast)
    ∧ (∃ S2, addCall S name { beginMarker := some t } args soe = .ok S2
        ∧ WFB S2 (stack ++ [t])) :=
  ⟨(addClose_trichotomy S stack hwf name t args soe).1,
   (addClose_trichotomy S stack hwf name t args soe).2.1,
   (addClose_trichotomy S stack hwf name t args soe).2.2,
   addOpen_ok S stack hwf name t args soe⟩

/-- C7 witness: closing an `other` block while a `map` block is open throws
the descriptive mismatch error. -/
theorem c7_witness :
    addCall (BuildState.mk [] (some (BuildState.mk [] none none 0))
        (some "map") (Int.ofNat 1)) "endOther"
      { endMarker := some "other" } [] true =
      .error ("Closing a \"other\" block when there" ++ apos ++
        "s an open \"map\" block.") := by
  have hwf : WFB (BuildState.mk [] (some (BuildState.mk [] none none 0))
      (some "map") (Int.ofNat 1)) ["map"] :=
    WFB.openB [] (BuildState.mk [] none none 0) "map" [] (WFB.closed [] none)
  exact (c7_block_matching _ ["map"] "endOther" "other" [] true hwf).2.1 "map"
    rfl (by decide)

lemma validateLoop_cons (ctx : CallContext) (args : List Value) (i : Nat)
    (spec : ArgSpec) (rest : List ArgSpec) :
    validateLoop ctx args i (spec :: rest) =
      match validateOne ctx args i spec with
      | .error e => .error e
      | .ok v =>
          match validateLoop ctx args (i + 1) rest with
          | .error e => .error e
          | .ok vs => .ok (v :: vs) := by
  cases h : validateOne ctx args i spec with
  | error e =>
      simp only [validateLoop, h]
      rfl
  | ok v =>
      cases h2 : validateLoop ctx args (i + 1) rest with
      | error e =>
          simp only [validateLoop, h, h2]
          rfl
      | ok vs =>
          simp only [validateLoop, h, h2]
          rfl

lemma validateLoop_append (ctx : CallContext) (args : List Value)
    (a b : List ArgSpec) (i : Nat) :
    validateLoop ctx args i (a ++ b) =
      match validateLoop ctx args i a with
      | .error e => .error e
      | .ok va =>
          match validateLoop ctx args (i + a.length) b with
          | .error e => .error e
          | .ok vb => .ok (va ++ vb) := by
  induction a generalizing i with
  | nil =>
      cases h : validateLoop ctx args i b with
      | error e =>
          simp only [List.nil_append, List.length_nil, Nat.add_zero, h]
          rfl
      | ok vb =>
          simp only [List.nil_append, List.length_nil, Nat.add_zero, h]
          rfl
  | cons spec rest ih =>
      rw [List.cons_append, validateLoop_cons, validateLoop_cons]
      cases h1 : validateOne ctx args i spec with
      | error e => rfl
      | ok v =>
          rw [ih]
          have hlen : i + 1 + rest.length = i + (spec :: rest).length := by
            simp
            omega
          rw [hlen]
          cases h2 : validateLoop ctx args (i + 1) rest with
          | error e => rfl
          | ok va =>
              cases h3 : validateLoop ctx args (i + (spec :: rest).length) b with
              | error e => rfl
              | ok vb => simp

lemma validateOne_required_missing (ctx : CallContext) (args : List Value)
    (i : Nat) (spec : ArgSpec) (hlen : args.length ≤ i)
    (hreq : spec.required = true) :
    validateOne ctx args i spec =
      .error ("Validation Error. Argument " ++ toString (i + 1) ++
        " is required but was not provided.") := by
  have hp : populateArg ctx args i spec =
      Except.error ("Validation Error. Argument " ++ toString (i + 1) ++
        " is required but was not provided.") := by
    simp [populateArg, hlen, hreq]
    rfl
  unfold validateOne
  rw [hp]
  rfl

lemma deriveArg_id (ctx : CallContext) (spec : ArgSpec) (a : Value)
    (htype : spec.type = none) (hinst : spec.instanceOf = none) :
    deriveArg ctx spec a = a := by
  cases a <;> simp [deriveArg, htype, hinst]

lemma validateOne_optional_missing (ctx : CallContext) (args : List Value)
    (i : Nat) (spec : ArgSpec) (hlen : args.length ≤ i)
    (hreq : spec.required = false) (htype : spec.type = none)
    (hinst : spec.instanceOf = none) :
    validateOne ctx args i spec =
      .ok (if spec.defaultToPreviousResult then ctx.previousResult
        else spec.default) := by
  have hp : populateArg ctx args i spec =
      pure (if spec.defaultToPreviousResult then ctx.previousResult
        else spec.default) := by
    simp [populateArg, hlen, hreq]
  unfold validateOne
  rw [hp]
  simp [deriveArg_id ctx spec _ htype hinst, checkArgType, checkArgInstance,
    htype, hinst]
  rfl

lemma validateOne_type_mismatch (ctx : CallContext) (args : List Value)
    (i : Nat) (spec : ArgSpec) (a : Value) (ty : String)
    (hlt : i < args.length) (ha : args.getD i Value.undefined = a)
    (hfn : a.typeofStr ≠ "function") (htype : spec.type = some ty)
    (hinst : spec.instanceOf = none) (hne : a.typeofStr ≠ ty) :
    validateOne ctx args i spec =
      .error ("Validation Error. Expected \"" ++ a.typeofStr ++
        "\" to be \"" ++ ty ++ "\" for: " ++ a.jsString) := by
  have hp : populateArg ctx args i spec = pure a := by
    rw [populateArg, if_neg (by omega), ha]
  have hd : deriveArg ctx spec a = a := by
    cases a with
    | func f => exact absurd rfl hfn
    | _ => rfl
  have hct : checkArgType spec a =
      Except.error ("Validation Error. Expected \"" ++ a.typeofStr ++
        "\" to be \"" ++ ty ++ "\" for: " ++ a.jsString) := by
    simp [checkArgType, htype, hne]
    rfl
  unfold validateOne
  rw [hp]
  simp only [pure_bind, hd, hct]
  rfl

/-- C8: argument validation against a declared parameter specification
throws the documented synchronous errors — the required-argument message at
position i + 1, the surplus-arguments count message, the type-mismatch
message quoting the actual and expected types and the value — and fills an
omitted non-required parameter with the previous result when
`defaultToPreviousResult` is set and with the spec's default otherwise. -/
theorem c8_argument_validation :
    (∀ (ctx : CallContext) (args : List Value) (specList : List ArgSpec),
      args.length > specList.length →
      validateAndPopulateArgs ctx args specList =
        .error ("Validation Error. Expected " ++ toString specList.length ++
          " arguments, but got " ++ toString args.length))
    ∧ (∀ (ctx : CallContext) (args : List Value) (preSpec : List ArgSpec)
        (spec : ArgSpec) (restSpec : List ArgSpec) (vals : List Value),
      args.length = preSpec.length →
      validateLoop ctx args 0 preSpec = .ok vals →
      spec.required = true →
      validateAndPopulateArgs ctx args (preSpec ++ spec :: restSpec) =
        .error ("Validation Error. Argument " ++ toString (preSpec.length + 1) ++
          " is required but was not provided."))
    ∧ (∀ (ctx : CallContext) (args : List Value) (preSpec : List ArgSpec)
        (spec : ArgSpec) (restSpec : List ArgSpec) (vals : List Value)
        (a : Value) (ty : String),
      validateLoop ctx args 0 preSpec = .ok vals →
      preSpec.length < args.length →
      args.length ≤ (preSpec ++ spec :: restSpec).length →
      args.getD preSpec.length Value.undefined = a →
      a.typeofStr ≠ "function" →
      spec.type = some ty → spec.instanceOf = none →
      a.typeofStr ≠ ty →
      validateAndPopulateArgs ctx args (preSpec ++ spec :: restSpec) =
        .error ("Validation Error. Expected \"" ++ a.typeofStr ++
          "\" to be \"" ++ ty ++ "\" for: " ++ a.jsString))
    ∧ (∀ (ctx : CallContext) (args : List Value) (preSpec : List ArgSpec)
        (spec : ArgSpec) (vals : List Value),
      args.length = preSpec.length →
      validateLoop ctx args 0 preSpec = .ok vals →
      spec.required = false → spec.type = none → spec.instanceOf = none →
      validateAndPopulateArgs ctx args (preSpec ++ [spec]) =
        .ok (vals ++ [if spec.defaultToPreviousResult then ctx.previousResult
          else spec.default])) := by
  refine ⟨?_, ?_, ?_, ?_⟩
  · intro ctx args specList hgt
    simp [validateAndPopulateArgs, hgt]
    rfl
  · intro ctx args preSpec spec restSpec vals hlen hpre hreq
    have hguard : ¬ (args.length > (preSpec ++ spec :: restSpec).length) := by
      simp
      omega
    unfold validateAndPopulateArgs
    rw [if_neg hguard, validateLoop_append, hpre,
      validateLoop_cons,
      validateOne_required_missing ctx args (0 + preSpec.length) spec
        (by omega) hreq]
    simp
  · intro ctx args preSpec spec restSpec vals a ty hpre hlt hle ha hfn htype
      hinst hne
    have hguard : ¬ (args.length > (preSpec ++ spec :: restSpec).length) := by
      simp at hle ⊢
      omega
    unfold validateAndPopulateArgs
    rw [if_neg hguard, validateLoop_append, hpre, validateLoop_cons,
      validateOne_type_mismatch ctx args (0 + preSpec.length) spec a ty
        (by omega) (by simpa using ha) hfn htype hinst hne]
  · intro ctx args preSpec spec vals hlen hpre hreq htype hinst
    have hguard : ¬ (args.length > (preSpec ++ [spec]).length) := by
      simp
      omega
    unfold validateAndPopulateArgs
    rw [if_neg hguard, validateLoop_append, hpre, validateLoop_cons,
      validateOne_optional_missing ctx args (0 + preSpec.length) spec
        (by omega) hreq htype hinst]
    simp [validateLoop]
    rfl

/-- C8 witness: a 1-parameter required spec with no argument, two arguments
against a 1-parameter spec, a string argument against a declared number
type, and an omitted defaulting parameter, each evaluated concretely. -/
theorem c8_witness :
    validateAndPopulateArgs {} [] [{ required := true }] =
      .error "Validation Error. Argument 1 is required but was not provided."
    ∧ validateAndPopulateArgs {} [Value.num 1, Value.num 2] [{}] =
      .error "Validation Error. Expected 1 arguments, but got 2"
    ∧ validateAndPopulateArgs {} [Value.str "x"] [{ type := some "number" }] =
      .error "Validation Error. Expected \"string\" to be \"number\" for: x"
    ∧ validateAndPopulateArgs
        { currentResult := Value.num 7, currentError := Value.undefined } []
        [{ defaultToPreviousResult := true }] =
      .ok [Value.num 7] := by
  refine ⟨?_, ?_, ?_, ?_⟩
  · have h := c8_argument_validation.2.1 {} [] [] { required := true } [] []
      rfl rfl rfl
    simpa using h
  · have h := c8_argument_validation.1 {} [Value.num 1, Value.num 2] [{}]
      (by decide)
    simpa using h
  · have h := c8_argument_validation.2.2.1 {} [Value.str "x"] []
      { type := some "number" } [] [] (Value.str "x") "number"
      rfl (by decide) (by decide) rfl (by decide) rfl rfl (by decide)
    simpa using h
  · have h := c8_argument_validation.2.2.2
      { currentResult := Value.num 7, currentError := Value.undefined } [] []
      { defaultToPreviousResult := true } [] rfl rfl rfl rfl rfl
    simpa [CallContext.previousResult] using h

lemma append_singleton_decompose {α : Type} {u u1 u2 : List α} {a l : α}
    (h : u ++ [a] = u1 ++ l :: u2) :
    (u1 = u ∧ l = a ∧ u2 = []) ∨
      (∃ u2', u2 = u2' ++ [a] ∧ u = u1 ++ l :: u2') := by
  rcases List.eq_nil_or_concat u2 with hu2 | ⟨u2', c, rfl⟩
  · subst hu2
    obtain ⟨h1, h2⟩ := List.append_inj' h rfl
    have ha : a = l := by injection h2 with ha _
    exact Or.inl ⟨h1.symm, ha.symm, rfl⟩
  · rw [List.concat_eq_append,
      show u1 ++ l :: (u2' ++ [c]) = (u1 ++ l :: u2') ++ [c] by simp] at h
    obtain ⟨h1, h2⟩ := List.append_inj' h rfl
    have hc : a = c := by injection h2 with hc _
    exact Or.inr ⟨u2', by rw [List.concat_eq_append, hc], h1⟩

lemma shape_mem_aux {n : Nat} {b : Bool} {u : List MLab} (h : Shape n b u) :
    ∀ i, i < n →
      (MLab.complete i ∈ u ∨ MLab.skipped i ∈ u) ∨ (b = true ∧ i + 1 = n) := by
  induction h with
  | nil => intro i hi; omega
  | skip n u hprev ih =>
      intro i hi
      rcases Nat.lt_or_ge i n with h1 | h1
      · rcases ih i h1 with h2 | ⟨hb, _⟩
        · rcases h2 with h2 | h2
          · exact Or.inl (Or.inl (List.mem_append_left _ h2))
          · exact Or.inl (Or.inr (List.mem_append_left _ h2))
        · exact absurd hb (by simp)
      · have hin : i = n := by omega
        subst hin
        exact Or.inl (Or.inr (List.mem_append_right _ (by simp)))
  | inv n u hprev ih =>
      intro i hi
      rcases Nat.lt_or_ge i n with h1 | h1
      · rcases ih i h1 with h2 | ⟨hb, _⟩
        · rcases h2 with h2 | h2
          · exact Or.inl (Or.inl (List.mem_append_left _ h2))
          · exact Or.inl (Or.inr (List.mem_append_left _ h2))
        · exact absurd hb (by simp)
      · have hin : i = n := by omega
        subst hin
        exact Or.inr ⟨rfl, rfl⟩
  | comp n u hprev ih =>
      intro i hi
      rcases ih i hi with h2 | ⟨_, h3⟩
      · rcases h2 with h2 | h2
        · exact Or.inl (Or.inl (List.mem_append_left _ h2))
        · exact Or.inl (Or.inr (List.mem_append_left _ h2))
      · have hin : i = n := by omega
        subst hin
        exact Or.inl (Or.inl (List.mem_append_right _ (by simp)))

lemma shape_fifo {n : Nat} {b : Bool} {u : List MLab} (h : Shape n b u) :
    ∀ u1 l u2 j, u = u1 ++ l :: u2 →
      (l = MLab.invoke j ∨ l = MLab.skipped j) →
      ∀ i, i < j → MLab.complete i ∈ u1 ∨ MLab.skipped i ∈ u1 := by
  induction h with
  | nil =>
      intro u1 l u2 j heq
      exact absurd heq (by simp)
  | skip n u hprev ih =>
      intro u1 l u2 j heq hl i hij
      rcases append_singleton_decompose heq with ⟨hu1, hla, _⟩ | ⟨u2', _, hu⟩
      · subst hu1
        have hj : j = n := by
          rcases hl with hl | hl
          · rw [hl] at hla
            exact absurd hla (by simp)
          · rw [hl] at hla
            injection hla
        subst hj
        rcases shape_mem_aux hprev i hij with h2 | ⟨hb, _⟩
        · exact h2
        · exact absurd hb (by simp)
      · exact ih u1 l u2' j hu hl i hij
  | inv n u hprev ih =>
      intro u1 l u2 j heq hl i hij
      rcases append_singleton_decompose heq with ⟨hu1, hla, _⟩ | ⟨u2', _, hu⟩
      · subst hu1
        have hj : j = n := by
          rcases hl with hl | hl
          · rw [hl] at hla
            injection hla
          · rw [hl] at hla
            exact absurd hla (by simp)
        subst hj
        rcases shape_mem_aux hprev i hij with h2 | ⟨hb, _⟩
        · exact h2
        · exact absurd hb (by simp)
      · exact ih u1 l u2' j hu hl i hij
  | comp n u hprev ih =>
      intro u1 l u2 j heq hl i hij
      rcases append_singleton_decompose heq with ⟨hu1, hla, _⟩ | ⟨u2', _, hu⟩
      · rcases hl with hl | hl <;> rw [hl] at hla <;> exact absurd hla (by simp)
      · exact ih u1 l u2' j hu hl i hij

lemma cascade_eq_guard (x : MState) (hg : (x.processing || !x.started) = true) :
    cascade x = (x, []) := by
  rw [cascade]
  rw [if_pos hg]

lemma cascade_eq_skip (x : MState) (hg : ¬(x.processing || !x.started) = true)
    (h : x.pos < x.queue.length)
    (hskip : (x.error.truthy && (x.queue.get ⟨x.pos, h⟩).skipOnError) = true) :
    cascade x = ((cascade (skipState x)).1,
      MLab.skipped x.pos :: (cascade (skipState x)).2) := by
  rw [cascade]
  rw [if_neg hg, dif_pos h, if_pos hskip]

lemma cascade_eq_invoke (x : MState) (hg : ¬(x.processing || !x.started) = true)
    (h : x.pos < x.queue.length)
    (hnskip : ¬(x.error.truthy && (x.queue.get ⟨x.pos, h⟩).skipOnError) = true) :
    cascade x = ({ x with pos := x.pos + 1, processing := true },
      [MLab.invoke x.pos]) := by
  rw [cascade]
  rw [if_neg hg, dif_pos h, if_neg hnskip]

lemma cascade_eq_terminal (x : MState) (hg : ¬(x.processing || !x.started) = true)
    (hnl : ¬ x.pos < x.queue.length) (hwd : x.whenDone = true) :
    cascade x = (x, [MLab.terminal]) := by
  rw [cascade]
  rw [if_neg hg, dif_neg hnl, if_pos hwd]

lemma cascade_eq_idle (x : MState) (hg : ¬(x.processing || !x.started) = true)
    (hnl : ¬ x.pos < x.queue.length) (hwd : ¬ x.whenDone = true) :
    cascade x = (x, []) := by
  rw [cascade]
  rw [if_neg hg, dif_neg hnl, if_neg hwd]

lemma not_guard_fields (x : MState) (hg : ¬(x.processing || !x.started) = true) :
    x.processing = false ∧ x.started = true := by
  constructor <;> revert hg <;> cases x.processing <;> cases x.started <;> simp

lemma cascade_spec (s : MState) :
    (cascade s).1.queue = s.queue
    ∧ (cascade s).1.started = s.started
    ∧ (cascade s).1.whenDone = s.whenDone
    ∧ s.pos ≤ (cascade s).1.pos
    ∧ (s.pos ≤ s.queue.length → (cascade s).1.pos ≤ s.queue.length) := by
  induction s using cascade.induct with
  | case1 x hg =>
      rw [cascade_eq_guard x hg]
      simp
  | case2 x hg h hskip ih =>
      rw [cascade_eq_skip x hg h hskip]
      dsimp only
      obtain ⟨i1, i2, i3, i4, i5⟩ := ih
      have hq : (skipState x).queue = x.queue := rfl
      have hp : (skipState x).pos = x.pos + 1 := rfl
      rw [hq] at i1 i5
      rw [hp] at i4 i5
      exact ⟨i1, i2, i3, by omega, fun hle => i5 (by omega)⟩
  | case3 x hg h hnskip =>
      rw [cascade_eq_invoke x hg h hnskip]
      exact ⟨rfl, rfl, rfl, Nat.le_succ _, fun _ => h⟩
  | case4 x hg hnl hwd =>
      rw [cascade_eq_terminal x hg hnl hwd]
      simp
  | case5 x hg hnl hwd =>
      rw [cascade_eq_idle x hg hnl hwd]
      simp

lemma cascade_shape (s : MState) :
    ∀ u, Shape s.pos s.processing u →
      Shape (cascade s).1.pos (cascade s).1.processing
        (u ++ proj (cascade s).2) := by
  induction s using cascade.induct with
  | case1 x hg =>
      intro u hu
      rw [cascade_eq_guard x hg]
      simpa [proj] using hu
  | case2 x hg h hskip ih =>
      intro u hu
      obtain ⟨hproc, hstart⟩ := not_guard_fields x hg
      rw [cascade_eq_skip x hg h hskip]
      have hu2 : Shape (skipState x).pos (skipState x).processing
          (u ++ [MLab.skipped x.pos]) := by
        show Shape (x.pos + 1) x.processing (u ++ [MLab.skipped x.pos])
        rw [hproc]
        apply Shape.skip
        rw [← hproc]
        exact hu
      have := ih (u ++ [MLab.skipped x.pos]) hu2
      simpa [proj, isCore, List.append_assoc] using this
  | case3 x hg h hnskip =>
      intro u hu
      obtain ⟨hproc, hstart⟩ := not_guard_fields x hg
      rw [cascade_eq_invoke x hg h hnskip]
      show Shape (x.pos + 1) true (u ++ proj [MLab.invoke x.pos])
      have hpr : proj [MLab.invoke x.pos] = [MLab.invoke x.pos] := rfl
      rw [hpr]
      apply Shape.inv
      rw [← hproc]
      exact hu
  | case4 x hg hnl hwd =>
      intro u hu
      rw [cascade_eq_terminal x hg hnl hwd]
      simpa [proj, isCore] using hu
  | case5 x hg hnl hwd =>
      intro u hu
      rw [cascade_eq_idle x hg hnl hwd]
      simpa [proj] using hu

lemma cascade_terminal_spec (s : MState) :
    (cascade s).2.count MLab.terminal ≤ 1
    ∧ (MLab.terminal ∈ (cascade s).2 → (cascade s).1.processing = false) := by
  induction s using cascade.induct with
  | case1 x hg =>
      rw [cascade_eq_guard x hg]
      simp
  | case2 x hg h hskip ih =>
      rw [cascade_eq_skip x hg h hskip]
      obtain ⟨i1, i2⟩ := ih
      constructor
      · simpa [List.count_cons] using i1
      · intro hmem
        simp at hmem
        exact i2 hmem
  | case3 x hg h hnskip =>
      rw [cascade_eq_invoke x hg h hnskip]
      simp
  | case4 x hg hnl hwd =>
      obtain ⟨hproc, _⟩ := not_guard_fields x hg
      rw [cascade_eq_terminal x hg hnl hwd]
      simp [hproc]
  | case5 x hg hnl hwd =>
      rw [cascade_eq_idle x hg hnl hwd]
      simp

lemma cascade_progress (s : MState) (hstart : s.started = true)
    (hproc : s.processing = false) (hwd : s.whenDone = true)
    (hle : s.pos ≤ s.queue.length) :
    MLab.terminal ∈ (cascade s).2 ∨
      ((cascade s).1.processing = true ∧ s.pos < (cascade s).1.pos) := by
  induction s using cascade.induct with
  | case1 x hg =>
      rw [hproc, hstart] at hg
      simp at hg
  | case2 x hg h hskip ih =>
      rw [cascade_eq_skip x hg h hskip]
      dsimp only
      have hle2 : (skipState x).pos ≤ (skipState x).queue.length := by
        show x.pos + 1 ≤ x.queue.length
        omega
      rcases ih hstart hproc hwd hle2 with hmem | ⟨hp, hlt⟩
      · exact Or.inl (by simp [hmem])
      · refine Or.inr ⟨hp, ?_⟩
        have hsp : (skipState x).pos = x.pos + 1 := rfl
        omega
  | case3 x hg h hnskip =>
      rw [cascade_eq_invoke x hg h hnskip]
      exact Or.inr ⟨rfl, Nat.lt_succ_self _⟩
  | case4 x hg hnl hwd2 =>
      rw [cascade_eq_terminal x hg hnl hwd2]
      simp
  | case5 x hg hnl hwd2 =>
      exact absurd hwd hwd2


lemma mstep_shape {adds : Bool} {s : MState} {labs : List MLab} {s2 : MState}
    (hs : MStep adds s labs s2) (u : List MLab)
    (h : Shape s.pos s.processing u) :
    Shape s2.pos s2.processing (u ++ proj labs) := by
  cases hs with
  | deliver adds s i hp hi hlt =>
      have h1 : Shape (i + 1) true u := by
        rw [hi, hp] at h
        exact h
      have h2 : Shape (i + 1) false (u ++ [MLab.complete i]) := Shape.comp i u h1
      have h3 := cascade_shape
        (mCallDone s (s.queue.get ⟨i, hlt⟩).outError
          (s.queue.get ⟨i, hlt⟩).outResult)
        (u ++ [MLab.complete i])
        (by
          show Shape s.pos false (u ++ [MLab.complete i])
          rw [hi]
          exact h2)
      simpa [proj, isCore, List.append_assoc] using h3
  | add s d =>
      exact cascade_shape { s with queue := s.queue ++ [d] } u h

lemma reaches_shape {adds : Bool} {s0 : MState} {tr : List MLab} {s : MState}
    (h : Reaches adds s0 tr s) :
    ∀ u0, Shape s0.pos s0.processing u0 →
      Shape s.pos s.processing (u0 ++ proj tr) := by
  induction h with
  | refl =>
      intro u0 h0
      simpa [proj] using h0
  | step hr hstep ih =>
      intro u0 h0
      have h1 := ih u0 h0
      have h2 := mstep_shape hstep _ h1
      simpa [proj, List.filter_append, List.append_assoc] using h2

lemma reaches_trans {adds : Bool} {s : MState} {tr1 : List MLab} {s1 : MState}
    {tr2 : List MLab} {s2 : MState} (h1 : Reaches adds s tr1 s1)
    (h2 : Reaches adds s1 tr2 s2) : Reaches adds s (tr1 ++ tr2) s2 := by
  induction h2 with
  | refl => simpa using h1
  | step hr hstep ih =>
      rw [← List.append_assoc]
      exact Reaches.step ih hstep

lemma mstep_terminal {s : MState} {labs : List MLab} {s2 : MState}
    (hs : MStep false s labs s2) :
    s.processing = true
    ∧ labs.count MLab.terminal ≤ 1
    ∧ (0 < labs.count MLab.terminal → s2.processing = false) := by
  cases hs
  rename_i i hp hi hlt
  refine ⟨hp, ?_, ?_⟩
  · have h1 := (cascade_terminal_spec (mCallDone s
      (s.queue.get ⟨i, hlt⟩).outError (s.queue.get ⟨i, hlt⟩).outResult)).1
    simpa [List.count_cons] using h1
  · intro hpos
    apply (cascade_terminal_spec (mCallDone s
      (s.queue.get ⟨i, hlt⟩).outError (s.queue.get ⟨i, hlt⟩).outResult)).2
    apply List.count_pos_iff.mp
    simpa [List.count_cons] using hpos

lemma reaches_terminal_inv {s0 : MState} {tr : List MLab} {s : MState}
    (h : Reaches false s0 tr s) (c0 : Nat)
    (h0 : c0 ≤ 1 ∧ (c0 = 1 → s0.processing = false)) :
    c0 + tr.count MLab.terminal ≤ 1
      ∧ (c0 + tr.count MLab.terminal = 1 → s.processing = false) := by
  induction h with
  | refl => simpa using h0
  | step hr hstep ih =>
      rename_i trA sB labsA sC
      obtain ⟨u1, u2⟩ := ih
      obtain ⟨hp, hle1, himp⟩ := mstep_terminal hstep
      rw [List.count_append]
      have hc0 : c0 + List.count MLab.terminal trA = 0 := by
        rcases Nat.lt_or_ge (c0 + List.count MLab.terminal trA) 1 with hlt1 | hge1
        · omega
        · have heq1 : c0 + List.count MLab.terminal trA = 1 :=
            Nat.le_antisymm u1 hge1
          have := u2 heq1
          rw [this] at hp
          exact absurd hp (by simp)
      constructor
      · omega
      · intro heq
        exact himp (by omega)

lemma run_to_terminal : ∀ (m : Nat) (s : MState),
    s.queue.length - s.pos ≤ m → s.started = true → s.whenDone = true →
    s.processing = true → 0 < s.pos → s.pos ≤ s.queue.length →
    ∃ tr s2, Reaches false s tr s2 ∧ MLab.terminal ∈ tr := by
  intro m
  induction m using Nat.strong_induction_on with
  | _ m ihm =>
      intro s hm hstart hwd hproc hpos hle
      have hi : s.pos = (s.pos - 1) + 1 := by omega
      have hlt : s.pos - 1 < s.queue.length := by omega
      set e := (s.queue.get ⟨s.pos - 1, hlt⟩).outError with hedef
      set r := (s.queue.get ⟨s.pos - 1, hlt⟩).outResult with hrdef
      set sd := mCallDone s e r with hsddef
      have hstep : MStep false s
          (MLab.complete (s.pos - 1) :: (cascade sd).2) (cascade sd).1 :=
        MStep.deliver false s (s.pos - 1) hproc hi hlt
      have hone : Reaches false s
          (MLab.complete (s.pos - 1) :: (cascade sd).2) (cascade sd).1 := by
        simpa using Reaches.step (Reaches.refl s) hstep
      have hsdp : sd.pos = s.pos := rfl
      have hsdq : sd.queue = s.queue := rfl
      have hsdst : sd.started = true := hstart
      have hsdwd : sd.whenDone = true := hwd
      rcases cascade_progress sd hsdst rfl hsdwd
          (by rw [hsdp, hsdq]; exact hle) with hmem | ⟨hp2, hlt2⟩
      · exact ⟨_, _, hone, List.mem_cons_of_mem _ hmem⟩
      · obtain ⟨q1, q2, q3, q4, q5⟩ := cascade_spec sd
        have hq1 : (cascade sd).1.queue = s.queue := by rw [q1, hsdq]
        have hlen : (cascade sd).1.pos ≤ s.queue.length := by
          have h5 := q5 (by rw [hsdp, hsdq]; exact hle)
          rw [hsdq] at h5
          exact h5
        have hposlt : s.pos < (cascade sd).1.pos := by
          rw [← hsdp]
          exact hlt2
        have hm2 : (cascade sd).1.queue.length - (cascade sd).1.pos < m := by
          rw [hq1]
          omega
        obtain ⟨tr2, s3, hreach2, hmem2⟩ := ihm _ hm2 (cascade sd).1 (le_refl _)
          (by rw [q2]; exact hsdst) (by rw [q3]; exact hsdwd) hp2 (by omega)
          (by rw [hq1]; exact hlen)
        exact ⟨_, s3, reaches_trans hone hreach2, List.mem_append_right _ hmem2⟩

/-- C2: two halves of the sequencing guarantee.  First, over the
asynchronous machine (deliveries at arbitrary later turns, descriptors
appended at any time): in every reachable trace, before descriptor j is
dispatched — invoked or skipped-and-advanced — every earlier descriptor i
has already completed (its completion or inline-skip label precedes the
dispatch), so descriptor N + 1 never begins before descriptor N's completion
callback has fired.  Second, a block-closing descriptor that relays its
subchain runs the whole child queue — the child's chain-start, full drain
(its cursor reaches the child queue's length) and chain-end all happen
inside the parent descriptor's call, before the parent's call-end event and
`_callDone`. -/
theorem c2_fifo_and_subchain_order :
    (∀ (q : List MDesc) (v : Value) (wd : Bool) (tr : List MLab) (s : MState),
      Reaches true (mStart q v wd).1 tr s →
      ∀ (u1 : List MLab) (l : MLab) (u2 : List MLab) (j : Nat),
        proj ((mStart q v wd).2 ++ tr) = u1 ++ l :: u2 →
        (l = MLab.invoke j ∨ l = MLab.skipped j) →
        ∀ i, i < j → MLab.complete i ∈ u1 ∨ MLab.skipped i ∈ u1)
    ∧ (∀ (M : Methods) (depth : Nat) (ctx : CallContext) (name : String)
        (args : List Value) (soe : Bool) (sq : List QDesc)
        (input : CallContext → Value),
      (M name).behavior = .runsSubchain input →
      (ctx.hasError && soe) = false →
      name ≠ "end" →
      processCalls M depth ctx [QDesc.mk name args soe (some sq)] =
        { ctx := callDone ctx (startQueue M (depth + 1) (input ctx) sq).error
            (startQueue M (depth + 1) (input ctx) sq).result,
          consumed := 1,
          trace := TraceEvent.callStart depth name ::
            ((startQueue M (depth + 1) (input ctx) sq).trace ++
              [TraceEvent.callEnd depth name
                (startQueue M (depth + 1) (input ctx) sq).error
                (startQueue M (depth + 1) (input ctx) sq).result]),
          invoked := [name] }
      ∧ (startQueue M (depth + 1) (input ctx) sq).consumed = sq.length) := by
  constructor
  · intro q v wd tr s hreach u1 l u2 j hdec hl i hij
    have hbase : Shape (mInit q v wd).pos (mInit q v wd).processing [] :=
      Shape.nil
    have hbase2 := cascade_shape (mInit q v wd) [] hbase
    have hT := reaches_shape hreach (proj (mStart q v wd).2)
      (by simpa [mStart] using hbase2)
    have hsplit : proj ((mStart q v wd).2 ++ tr) =
        proj (mStart q v wd).2 ++ proj tr := by
      simp [proj, List.filter_append]
    rw [hsplit] at hdec
    exact shape_fifo hT u1 l u2 j hdec hl i hij
  · intro M depth ctx name args soe sq input hb hskip hname
    constructor
    · rw [processCalls_cons, processCalls_nil]
      have hstep : processCallFull M depth ctx (QDesc.mk name args soe (some sq)) =
          { ctx := callDone ctx (startQueue M (depth + 1) (input ctx) sq).error
              (startQueue M (depth + 1) (input ctx) sq).result,
            trace := TraceEvent.callStart depth name ::
              ((startQueue M (depth + 1) (input ctx) sq).trace ++
                [TraceEvent.callEnd depth name
                  (startQueue M (depth + 1) (input ctx) sq).error
                  (startQueue M (depth + 1) (input ctx) sq).result]),
            invoked := [name] } := by
        rw [processCallFull.eq_def]
        simp only [hskip, Bool.false_eq_true, if_false, hb]
        simp [startQueue, startEvents, endEvents, hname, CallContext.previousError,
          CallContext.previousResult]
      rw [hstep]
      simp
    · rw [startQueue]
      exact processCalls_consumed M (depth + 1)
        { currentResult := input ctx, currentError := Value.undefined } sq

/-- C2 witness: in a concrete two-descriptor machine run whose trace
dispatches descriptor 1, descriptor 0 has already completed (or been
skipped) earlier in the trace; and a concrete relaying block-closer runs
its one-descriptor subchain to full drain inside the parent call events. -/
theorem c2_witness :
    (MLab.complete 0 ∈ [MLab.invoke 0, MLab.complete 0]
      ∨ MLab.skipped 0 ∈ [MLab.invoke 0, MLab.complete 0])
    ∧ (startQueue fixM 1 (Value.num 3) [QDesc.mk "t2" [] true none]).consumed =
      [QDesc.mk "t2" [] true none].length := by
  constructor
  · have hstart : mStart mfixQ Value.undefined false = (mfixS1, [MLab.invoke 0]) := by
      rw [mStart, cascade_eq_invoke (mInit mfixQ Value.undefined false)
        (by decide) (by decide) (by decide)]
      rfl
    have hlt : (0 : Nat) < mfixS1.queue.length := by decide
    have hstep := MStep.deliver true mfixS1 0 rfl rfl hlt
    have hget : mfixS1.queue.get ⟨0, hlt⟩ = mfixA := rfl
    have hcas : cascade (mCallDone mfixS1 mfixA.outError mfixA.outResult) =
        (mfixS2, [MLab.invoke 1]) := by
      rw [cascade_eq_invoke (mCallDone mfixS1 mfixA.outError mfixA.outResult)
        (by decide) (by decide) (by decide)]
      rfl
    have hreach : Reaches true (mStart mfixQ Value.undefined false).1
        ([] ++ (MLab.complete 0 ::
          (cascade (mCallDone mfixS1 (mfixS1.queue.get ⟨0, hlt⟩).outError
            (mfixS1.queue.get ⟨0, hlt⟩).outResult)).2))
        (cascade (mCallDone mfixS1 (mfixS1.queue.get ⟨0, hlt⟩).outError
          (mfixS1.queue.get ⟨0, hlt⟩).outResult)).1 := by
      rw [hstart]
      exact Reaches.step (Reaches.refl mfixS1) hstep
    exact c2_fifo_and_subchain_order.1 mfixQ Value.undefined false _ _ hreach
      [MLab.invoke 0, MLab.complete 0] (MLab.invoke 1) [] 1
      (by rw [hstart, hget, hcas]; decide) (Or.inl rfl) 0 (by decide)
  · exact (c2_fifo_and_subchain_order.2 fixM 0
      { currentResult := Value.num 3, currentError := Value.undefined }
      "endBlock" [] true [QDesc.mk "t2" [] true none]
      (fun c => c.previousResult) rfl (by decide) (by decide)).2

/-- C3: the terminal callback registered via `run` is invoked exactly once:
no reachable trace of the machine (without builder appends, the `run`
situation) fires the terminal label twice, and from every started queue
whose operations all eventually deliver their completions there is a run
whose trace fires it exactly once. -/
theorem c3_terminal_exactly_once :
    (∀ (q : List MDesc) (v : Value) (tr : List MLab) (s : MState),
      Reaches false (mStart q v true).1 tr s →
      ((mStart q v true).2 ++ tr).count MLab.terminal ≤ 1)
    ∧ (∀ (q : List MDesc) (v : Value),
      ∃ tr s, Reaches false (mStart q v true).1 tr s ∧
        ((mStart q v true).2 ++ tr).count MLab.terminal = 1) := by
  have hbase : ∀ (q : List MDesc) (v : Value),
      (mStart q v true).2.count MLab.terminal ≤ 1
      ∧ ((mStart q v true).2.count MLab.terminal = 1 →
        (mStart q v true).1.processing = false) := by
    intro q v
    have h := cascade_terminal_spec (mInit q v true)
    refine ⟨h.1, fun hc => ?_⟩
    have hc2 : (cascade (mInit q v true)).2.count MLab.terminal = 1 := hc
    exact h.2 (List.count_pos_iff.mp (by omega))
  constructor
  · intro q v tr s hreach
    have h := reaches_terminal_inv hreach
      ((mStart q v true).2.count MLab.terminal) (hbase q v)
    rw [List.count_append]
    exact h.1
  · intro q v
    rcases cascade_progress (mInit q v true) rfl rfl rfl (by simp [mInit])
      with hmem | ⟨hp, hlt⟩
    · refine ⟨[], (mStart q v true).1, Reaches.refl _, ?_⟩
      have hge : 0 < (mStart q v true).2.count MLab.terminal :=
        List.count_pos_iff.mpr hmem
      have hle := (hbase q v).1
      simp only [List.append_nil]
      omega
    · obtain ⟨q1, q2, q3, q4, q5⟩ := cascade_spec (mInit q v true)
      obtain ⟨tr, s2, hreach, hmem⟩ := run_to_terminal
        ((mInit q v true).queue.length - (cascade (mInit q v true)).1.pos)
        (mStart q v true).1
        (by rw [mStart, q1])
        (by rw [mStart, q2]; rfl)
        (by rw [mStart, q3]; rfl)
        hp
        (by rw [mStart]; exact Nat.lt_of_le_of_lt (Nat.zero_le _) hlt)
        (by rw [mStart, q1]; exact q5 (by simp [mInit]))
      refine ⟨tr, s2, hreach, ?_⟩
      have hge : 0 < tr.count MLab.terminal := List.count_pos_iff.mpr hmem
      have huniq := reaches_terminal_inv hreach
        ((mStart q v true).2.count MLab.terminal) (hbase q v)
      rw [List.count_append]
      omega

/-- C3 witness: the empty queue with a registered terminal callback fires
the terminal label exactly once at start, and no further step changes that. -/
theorem c3_witness :
    ((mStart [] Value.undefined true).2 ++ []).count MLab.terminal ≤ 1 := by
  exact c3_terminal_exactly_once.1 [] Value.undefined [] (mStart [] Value.undefined true).1
    (Reaches.refl _)

/-- C10: the exported constructor treats any falsy initial value exactly
like no initial value — the chain defers execution (queue not started) —
and starts the queue immediately exactly for truthy initial values. -/
theorem c10_falsy_initial (v : Value) :
    ((publicChain v).isStarted = v.truthy)
    ∧ (v.truthy = false → publicChain v = publicChain Value.undefined
        ∧ (publicChain v).isStarted = false) := by
  constructor
  · by_cases h : v.truthy = true
    · have hne : v ≠ Value.undefined := by
        intro hv
        rw [hv] at h
        simp [Value.truthy] at h
      simp [publicChain, h, chainFactoryNew, hne]
    · have h0 : v.truthy = false := by
        cases hv : v.truthy
        · rfl
        · exact absurd hv h
      simp [publicChain, h0, chainFactoryNew]
  · intro h0
    constructor
    · simp [publicChain, h0]
    · simp [publicChain, h0, chainFactoryNew]

/-- C10 witness: the falsy initial value `0` builds the same deferred chain
as passing nothing. -/
theorem c10_witness :
    publicChain (Value.num 0) = publicChain Value.undefined
    ∧ (publicChain (Value.num 0)).isStarted = false :=
  (c10_falsy_initial (Value.num 0)).2 (by decide)

end ChainBuilder
